import Mathlib

/-
  Verification of TomiHiltunen/GAE-Go-image-optimizer (package optimg).

  The file optimg.go is shallowly embedded below.  The blobstore is modelled
  as an association list from blob keys (Nat) to blob data; the external
  collaborators (blobstore.Create / jpeg.Encode / writer.Close / writer.Key /
  blobstore.Stat), each of which can fail independently, are modelled by an
  environment of success flags plus the fresh key the writer allocates.
  Go's float64 scaling expressions
      int(math.Floor(float64(y) * float64(float64(m)/float64(x))))
  are embedded twice: bit-faithfully in goFloorScale / computeTargetSizeF
  (IEEE 754 binary64 round-to-nearest-even on the division and on the
  multiplication, then floor; exact for all inputs below 2^53, the normal
  range), and as the exact rational floor y * m / x in computeTargetSize,
  an idealization the two float64 roundings can undershoot (e.g. 49 * 49
  at bound 1); theorems about the scaling formulas themselves use the
  faithful model, while claims whose content is independent of that
  rounding are settled over the idealization.
-/

set_option autoImplicit false
set_option maxRecDepth 4000

namespace Optimg

/-- Decoded image content: the natural pixel bounds (img.Bounds().Max). -/
structure Img where
  width : Nat
  height : Nat
deriving DecidableEq, Repr

/-- A stored blob: its declared content type, its decodability as an image
(`none` models bytes that image.Decode rejects), and, when the blob was
JPEG-encoded by this package, the jpeg.Options quality used. -/
structure BlobData where
  contentType : String
  image : Option Img
  quality : Option Nat
deriving DecidableEq, Repr

/-- blobstore.BlobInfo as the code observes it: the blob key and the
declared content type. -/
structure BlobInfo where
  blobKey : Nat
  contentType : String
deriving DecidableEq, Repr

/-- The blobstore: an association list from blob key to blob data. -/
abbrev Store := List (Nat × BlobData)

/-- blobstore.Delete: remove the (first) entry with the given key. -/
def deleteOldBlob (blobkey : Nat) : Store → Store
  | [] => []
  | (k, d) :: rest => if k = blobkey then rest else (k, d) :: deleteOldBlob blobkey rest

/-- compressionOptions: Quality for the JPEG encoder, Size the maximum
dimension (0 = do not resize).  Request/Context are the ambient
collaborators and are modelled separately (Store/Env). -/
structure compressionOptions where
  Quality : Nat
  Size : Nat
deriving DecidableEq, Repr

/-- NewCompressionOptions: Quality 75, Size 0. -/
def NewCompressionOptions : compressionOptions :=
  { Quality := 75, Size := 0 }

/-- One handleBlob invocation's external collaborators: whether
blobstore.Create, jpeg.Encode, writer.Close, writer.Key and blobstore.Stat
succeed, and the fresh key the blobstore writer allocates. -/
structure Env where
  createOk : Bool
  encodeOk : Bool
  closeOk : Bool
  keyOk : Bool
  statOk : Bool
  newKey : Nat
deriving DecidableEq, Repr

/-- An environment in which every blobstore operation succeeds. -/
def Env.allOk (e : Env) : Prop :=
  e.createOk = true ∧ e.encodeOk = true ∧ e.closeOk = true ∧
  e.keyOk = true ∧ e.statOk = true

instance (e : Env) : Decidable e.allOk := by
  unfold Env.allOk
  infer_instance

/-- The allowed mime-types map of optimg.go (keys with value true). -/
def allowedMimeTypes : List String :=
  ["image/jpeg", "image/jpg", "image/png", "image/gif"]

/-- strings.ToLower, modelled character-wise on the string's characters
(ASCII case mapping, the alphabet of the allow-list). -/
def toLowerStr (s : String) : String :=
  ⟨s.data.map Char.toLower⟩

/-- validateMimeType: lower-case the declared content type and look it up in
allowedMimeTypes (a missing key yields false). -/
def validateMimeType (contentType : String) : Bool :=
  allowedMimeTypes.contains (toLowerStr contentType)

/-- The resize computation of handleBlob (optimg.go lines 297-310), the
AspectScaler of the spec: returns the target (width, height) and whether the
guard `Size > 0 && (X > Size || Y > Size)` fired (i.e. resize.Resize runs).
Two sequential passes: the first clamps the width and recomputes the height
from the original ratio; the second, on the already-updated values, clamps
the height and recomputes the width from the intermediate ratio. -/
def computeTargetSize (size w h : Nat) : Nat × Nat × Bool :=
  if 0 < size ∧ (size < w ∨ size < h) then
    let p1 : Nat × Nat := if size < w then (size, h * size / w) else (w, h)
    let p2 : Nat × Nat := if size < p1.2 then (p1.1 * size / p1.2, size) else p1
    (p2.1, p2.2, true)
  else
    (w, h, false)

/-- handleBlob (optimg.go lines 282-345): gate on mime type, decode, resize
if necessary, write a JPEG at options.Quality as a new blob, fetch its key
and BlobInfo, and only then delete the old blob.  Every failure returns the
original BlobInfo.  The writer's blob becomes visible in the store when
writer.Close succeeds; a write abandoned before a successful Close leaves
the store unchanged (the partially written object is not modelled). -/
def handleBlob (options : compressionOptions) (env : Env) (store : Store)
    (blobOriginal : BlobInfo) : BlobInfo × Store :=
  if validateMimeType blobOriginal.contentType = false then (blobOriginal, store) else
  match (List.lookup blobOriginal.blobKey store).bind BlobData.image with
  | none => (blobOriginal, store)
  | some img =>
    let t := computeTargetSize options.Size img.width img.height
    let newData : BlobData :=
      { contentType := "image/jpeg", image := some ⟨t.1, t.2.1⟩,
        quality := some options.Quality }
    if env.createOk = false then (blobOriginal, store) else
    if env.encodeOk = false then (blobOriginal, store) else
    if env.closeOk = false then (blobOriginal, store) else
    let store1 : Store := (env.newKey, newData) :: store
    if env.keyOk = false then (blobOriginal, store1) else
    match List.lookup env.newKey store1 with
    | none => (blobOriginal, store1)
    | some statData =>
      if env.statOk = false then (blobOriginal, store1) else
      (⟨env.newKey, statData.contentType⟩, deleteOldBlob blobOriginal.blobKey store1)

/-- handleBlobSlice's loop: each blob at index i is processed with the
environment envs i, threading the store left to right. -/
def handleBlobSliceGo (options : compressionOptions) (envs : Nat → Env) :
    Nat → Store → List BlobInfo → List BlobInfo × Store
  | _, store, [] => ([], store)
  | i, store, b :: bs =>
    let r := handleBlob options (envs i) store b
    let rest := handleBlobSliceGo options envs (i + 1) r.2 bs
    (r.1 :: rest.1, rest.2)

/-- handleBlobSlice (optimg.go lines 265-272): replace every entry of the
slice, by index, with the result of handleBlob on the entry that was there. -/
def handleBlobSlice (options : compressionOptions) (envs : Nat → Env)
    (store : Store) (blobSlice : List BlobInfo) : List BlobInfo × Store :=
  handleBlobSliceGo options envs 0 store blobSlice

/-- ParseBlobs' loop over the field-name → blob-slice mapping: each field's
slice is handed to handleBlobSlice, the store threading through. -/
def processFields (options : compressionOptions) (envs : String → Nat → Env) :
    Store → List (String × List BlobInfo) → List (String × List BlobInfo) × Store
  | store, [] => ([], store)
  | store, (name, slice) :: rest =>
    let r := handleBlobSlice options (envs name) store slice
    let rr := processFields options envs r.2 rest
    ((name, r.1) :: rr.1, rr.2)

/-- ParseBlobs (optimg.go lines 250-260): blobstore.ParseUpload is the
external collaborator; its output (blobs, other) — or its failure, `none` —
is this function's input.  A parse failure is returned verbatim before any
processing; otherwise every field's slice is processed and the plain form
values `other` are passed through. -/
def ParseBlobs (options : compressionOptions) (envs : String → Nat → Env)
    (store : Store)
    (parsed : Option (List (String × List BlobInfo) × List (String × String))) :
    Option (List (String × List BlobInfo) × List (String × String) × Store) :=
  match parsed with
  | none => none
  | some (blobs, other) =>
    let r := processFields options envs store blobs
    some (r.1, other, r.2)

end Optimg

namespace Optimg

/-- Helper: with a positive bound, both components computed by the scaler
are at most the bound. -/
theorem computeTargetSize_le (m w h : Nat) (hm : 0 < m) :
    (computeTargetSize m w h).1 ≤ m ∧ (computeTargetSize m w h).2.1 ≤ m := by
  unfold computeTargetSize
  by_cases hg : 0 < m ∧ (m < w ∨ m < h)
  · simp only [hg, if_true]
    by_cases hw : m < w
    · simp only [hw, if_true]
      by_cases hy : m < h * m / w
      · have hy0 : 0 < h * m / w := Nat.lt_of_lt_of_le hm (Nat.le_of_lt hy)
        simp only [hy, if_true]
        refine ⟨?_, Nat.le_refl m⟩
        calc m * m / (h * m / w) ≤ (h * m / w) * m / (h * m / w) :=
              Nat.div_le_div_right (Nat.mul_le_mul_right m (Nat.le_of_lt hy))
          _ = m := Nat.mul_div_cancel_left m hy0
      · simp only [hy, if_false]
        exact ⟨Nat.le_refl m, Nat.le_of_not_lt hy⟩
    · have hh : m < h := by
        rcases hg.2 with h1 | h1
        · exact absurd h1 hw
        · exact h1
      have hh0 : 0 < h := Nat.lt_of_le_of_lt (Nat.zero_le m) hh
      simp only [hw, if_false, hh, if_true]
      refine ⟨?_, Nat.le_refl m⟩
      calc w * m / h ≤ h * m / h :=
            Nat.div_le_div_right
              (Nat.mul_le_mul_right m (Nat.le_trans (Nat.le_of_not_lt hw) (Nat.le_of_lt hh)))
        _ = m := Nat.mul_div_cancel_left m hh0
  · simp only [hg, if_false]
    push_neg at hg
    rcases hg hm with ⟨h1, h2⟩
    exact ⟨h1, h2⟩

/-- Helper: applying the scaler to its own output reports no change and
keeps the dimensions. -/
theorem computeTargetSize_stable (m w h : Nat) :
    computeTargetSize m (computeTargetSize m w h).1 (computeTargetSize m w h).2.1 =
      ((computeTargetSize m w h).1, (computeTargetSize m w h).2.1, false) := by
  by_cases hm : 0 < m
  · rcases computeTargetSize_le m w h hm with ⟨h1, h2⟩
    unfold computeTargetSize
    rw [if_neg]
    intro hc
    rcases hc.2 with h3 | h3
    · exact absurd h1 (Nat.not_le_of_lt h3)
    · exact absurd h2 (Nat.not_le_of_lt h3)
  · unfold computeTargetSize
    rw [if_neg, if_neg]
    · intro hc; exact hm hc.1
    · intro hc; exact hm hc.1

end Optimg

namespace Optimg

/-- C5: validateMimeType lower-cases the content type and accepts exactly
the four allowed mime types; every other string yields false (the function
is total and Bool-valued, so no error is possible). -/
theorem validateMimeType_spec (s : String) :
    validateMimeType s = true ↔
      (toLowerStr s = "image/jpeg" ∨ toLowerStr s = "image/jpg" ∨
       toLowerStr s = "image/png" ∨ toLowerStr s = "image/gif") := by
  simp [validateMimeType, allowedMimeTypes]

/-- C9: the scaler can produce a zero target dimension: an extreme landscape
image (width at least height * (maxDimension + 1)) is sent to height 0, and
an extreme portrait image to width 0; no lower bound of 1 is enforced. -/
theorem computeTargetSize_zero_dim (m w h w2 h2 : Nat) (hm : 0 < m) (hh : 0 < h)
    (hw : h * (m + 1) ≤ w) (hw2 : 0 < w2) (hw2m : w2 ≤ m) (hh2 : w2 * (m + 1) ≤ h2) :
    computeTargetSize m w h = (m, 0, true) ∧ computeTargetSize m w2 h2 = (0, m, true) := by
  constructor
  · have hmw : m < w := by
      have h1 : m + 1 ≤ h * (m + 1) := Nat.le_mul_of_pos_left (m + 1) hh
      exact Nat.lt_of_lt_of_le (Nat.lt_succ_self m) (Nat.le_trans h1 hw)
    have hdiv : h * m / w = 0 := by
      apply Nat.div_eq_of_lt
      have h1 : h * m < h * (m + 1) := by
        rw [Nat.mul_succ]
        exact Nat.lt_add_of_pos_right hh
      exact Nat.lt_of_lt_of_le h1 hw
    unfold computeTargetSize
    rw [if_pos ⟨hm, Or.inl hmw⟩]
    simp only [if_pos hmw, hdiv]
    rw [if_neg (Nat.not_lt_of_le (Nat.zero_le m))]
  · have hmh : m < h2 := by
      have h1 : m + 1 ≤ w2 * (m + 1) := Nat.le_mul_of_pos_left (m + 1) hw2
      exact Nat.lt_of_lt_of_le (Nat.lt_succ_self m) (Nat.le_trans h1 hh2)
    have hdiv : w2 * m / h2 = 0 := by
      apply Nat.div_eq_of_lt
      have h1 : w2 * m < w2 * (m + 1) := by
        rw [Nat.mul_succ]
        exact Nat.lt_add_of_pos_right hw2
      exact Nat.lt_of_lt_of_le h1 hh2
    unfold computeTargetSize
    rw [if_pos ⟨hm, Or.inr hmh⟩]
    simp only [if_neg (Nat.not_lt_of_le hw2m)]
    rw [if_pos hmh, hdiv]

/-- Witness for C9 at maxDimension 1: a 2 x 1 image goes to (1, 0) and a
1 x 2 image to (0, 1). -/
theorem computeTargetSize_zero_dim_witness :
    (0 < 1 ∧ 0 < 1 ∧ 1 * (1 + 1) ≤ 2 ∧ 0 < 1 ∧ 1 ≤ 1 ∧ 1 * (1 + 1) ≤ 2) ∧
    (computeTargetSize 1 2 1 = (1, 0, true) ∧ computeTargetSize 1 1 2 = (0, 1, true)) :=
  ⟨by decide, computeTargetSize_zero_dim 1 2 1 1 2 (by decide) (by decide) (by decide)
    (by decide) (by decide) (by decide)⟩

end Optimg

namespace Optimg

/-- The blob data handleBlob writes on its success path: a JPEG at
options.Quality whose dimensions are the scaler's output for the decoded
image. -/
def transcodedData (options : compressionOptions) (img : Img) : BlobData :=
  { contentType := "image/jpeg",
    image := some ⟨(computeTargetSize options.Size img.width img.height).1,
                   (computeTargetSize options.Size img.width img.height).2.1⟩,
    quality := some options.Quality }

/-- Helper: deleting a key keeps a head entry with a different key. -/
theorem deleteOldBlob_cons_ne (k k2 : Nat) (d : BlobData) (s : Store) (h : k2 ≠ k) :
    deleteOldBlob k ((k2, d) :: s) = (k2, d) :: deleteOldBlob k s := by
  simp only [deleteOldBlob]
  rw [if_neg h]

/-- Helper: looking up the key just written finds its data. -/
theorem lookup_cons_self (k : Nat) (d : BlobData) (s : Store) :
    List.lookup k ((k, d) :: s) = some d := by
  simp [List.lookup]

/-- Helper: looking a key up past a head entry with a different key. -/
theorem lookup_cons_ne (k k2 : Nat) (d : BlobData) (s : Store) (h : k2 ≠ k) :
    List.lookup k ((k2, d) :: s) = List.lookup k s := by
  have hb : (k == k2) = false := beq_eq_false_iff_ne.mpr (Ne.symm h)
  simp [List.lookup, hb]

/-- Helper: on the all-success path handleBlob returns the stat BlobInfo of
the freshly written JPEG and the store in which that JPEG was written and
the original blob deleted. -/
theorem handleBlob_success_eq (opts : compressionOptions) (env : Env) (store : Store)
    (b : BlobInfo) (d : BlobData) (img : Img)
    (hv : validateMimeType b.contentType = true)
    (hl : List.lookup b.blobKey store = some d) (hi : d.image = some img)
    (he : env.allOk) :
    handleBlob opts env store b =
      (⟨env.newKey, "image/jpeg"⟩,
       deleteOldBlob b.blobKey ((env.newKey, transcodedData opts img) :: store)) := by
  obtain ⟨h1, h2, h3, h4, h5⟩ := he
  unfold handleBlob
  rw [hv, hl]
  simp only [Option.some_bind]
  rw [hi]
  simp only [h1, h2, h3, h4, h5, Bool.true_eq_false, if_false, List.lookup,
    beq_self_eq_true]
  rfl

/-- Any of the ways one handleBlob invocation can fail: unsupported content
type, undecodable or missing blob, or a failing blobstore.Create,
jpeg.Encode, writer.Close, writer.Key or blobstore.Stat. -/
def handleBlobFails (env : Env) (store : Store) (b : BlobInfo) : Prop :=
  validateMimeType b.contentType = false ∨
  (List.lookup b.blobKey store).bind BlobData.image = none ∨
  env.createOk = false ∨ env.encodeOk = false ∨ env.closeOk = false ∨
  env.keyOk = false ∨ env.statOk = false

instance (env : Env) (store : Store) (b : BlobInfo) :
    Decidable (handleBlobFails env store b) := by
  unfold handleBlobFails
  infer_instance

/-- Helper: every failing run hands back the original BlobInfo and leaves
the original blob's entry in the store untouched. -/
theorem handleBlob_frame (opts : compressionOptions) (env : Env) (store : Store)
    (b : BlobInfo) (hk : env.newKey ≠ b.blobKey) (hf : handleBlobFails env store b) :
    (handleBlob opts env store b).1 = b ∧
    List.lookup b.blobKey (handleBlob opts env store b).2 = List.lookup b.blobKey store := by
  have hb : (b.blobKey == env.newKey) = false := beq_eq_false_iff_ne.mpr (Ne.symm hk)
  unfold handleBlobFails at hf
  unfold handleBlob
  rcases env with ⟨c1, c2, c3, c4, c5, nk⟩
  cases hv : validateMimeType b.contentType <;>
    rcases hdec : (List.lookup b.blobKey store).bind BlobData.image with _ | img <;>
      cases c1 <;> cases c2 <;> cases c3 <;> cases c4 <;> cases c5 <;>
        simp_all [lookup_cons_self, lookup_cons_ne _ _ _ _ hk]

end Optimg

namespace Optimg

/-- C4: handleBlob never fails its caller: whenever any step fails
(unsupported type, decode, Create, Encode, Close, Key or Stat), it returns
the original BlobInfo unchanged and the original blob's store entry is
untouched. -/
theorem handleBlob_never_fails_caller (opts : compressionOptions) (env : Env)
    (store : Store) (b : BlobInfo) (hk : env.newKey ≠ b.blobKey)
    (hf : handleBlobFails env store b) :
    (handleBlob opts env store b).1 = b ∧
    List.lookup b.blobKey (handleBlob opts env store b).2 = List.lookup b.blobKey store :=
  handleBlob_frame opts env store b hk hf

/-- Witness for C4: a stat failure on a decodable JPEG leaves the caller
with the original BlobInfo and the original blob still stored. -/
theorem handleBlob_never_fails_caller_witness :
    ((2 : Nat) ≠ 1 ∧
     handleBlobFails ⟨true, true, true, true, false, 2⟩
       [(1, ⟨"image/jpeg", some ⟨3000, 2000⟩, none⟩)] ⟨1, "image/jpeg"⟩) ∧
    ((handleBlob ⟨75, 1600⟩ ⟨true, true, true, true, false, 2⟩
        [(1, ⟨"image/jpeg", some ⟨3000, 2000⟩, none⟩)] ⟨1, "image/jpeg"⟩).1 =
      ⟨1, "image/jpeg"⟩ ∧
     List.lookup 1 (handleBlob ⟨75, 1600⟩ ⟨true, true, true, true, false, 2⟩
        [(1, ⟨"image/jpeg", some ⟨3000, 2000⟩, none⟩)] ⟨1, "image/jpeg"⟩).2 =
      List.lookup 1 [(1, (⟨"image/jpeg", some ⟨3000, 2000⟩, none⟩ : BlobData))]) :=
  ⟨⟨by decide, by decide⟩,
   handleBlob_never_fails_caller ⟨75, 1600⟩ ⟨true, true, true, true, false, 2⟩
     [(1, ⟨"image/jpeg", some ⟨3000, 2000⟩, none⟩)] ⟨1, "image/jpeg"⟩
     (by decide) (by decide)⟩

/-- C3: the original blob's store entry changes only on the full success
path: if what the original key resolves to changed at all, then the mime
gate passed, the blob decoded, and Create, Encode, Close, Key and Stat all
succeeded — so the delete of the old blob happens only after a successful
stat, and any failure leaves the old blob undeleted. -/
theorem handleBlob_delete_only_after_stat (opts : compressionOptions) (env : Env)
    (store : Store) (b : BlobInfo) (hk : env.newKey ≠ b.blobKey)
    (hchange : List.lookup b.blobKey (handleBlob opts env store b).2 ≠
      List.lookup b.blobKey store) :
    validateMimeType b.contentType = true ∧
    (∃ i, (List.lookup b.blobKey store).bind BlobData.image = some i) ∧
    env.allOk := by
  by_contra hcon
  apply hchange
  refine (handleBlob_frame opts env store b hk ?_).2
  unfold handleBlobFails
  cases hvb : validateMimeType b.contentType with
  | false => exact Or.inl rfl
  | true =>
    rcases hdec : (List.lookup b.blobKey store).bind BlobData.image with _ | img
    · exact Or.inr (Or.inl rfl)
    · have hna : ¬ env.allOk := fun hall => hcon ⟨hvb, ⟨img, hdec⟩, hall⟩
      cases h1 : env.createOk with
      | false => exact Or.inr (Or.inr (Or.inl rfl))
      | true =>
        cases h2 : env.encodeOk with
        | false => exact Or.inr (Or.inr (Or.inr (Or.inl rfl)))
        | true =>
          cases h3 : env.closeOk with
          | false => exact Or.inr (Or.inr (Or.inr (Or.inr (Or.inl rfl))))
          | true =>
            cases h4 : env.keyOk with
            | false => exact Or.inr (Or.inr (Or.inr (Or.inr (Or.inr (Or.inl rfl)))))
            | true =>
              cases h5 : env.statOk with
              | false =>
                exact Or.inr (Or.inr (Or.inr (Or.inr (Or.inr (Or.inr rfl)))))
              | true => exact absurd ⟨h1, h2, h3, h4, h5⟩ hna

/-- Witness for C3: a successful replacement in which the old entry did
change (it was deleted), and all steps indeed succeeded. -/
theorem handleBlob_delete_only_after_stat_witness :
    ((2 : Nat) ≠ 1 ∧
     List.lookup 1 (handleBlob ⟨75, 1600⟩ ⟨true, true, true, true, true, 2⟩
        [(1, ⟨"image/jpeg", some ⟨3000, 2000⟩, none⟩)] ⟨1, "image/jpeg"⟩).2 ≠
      List.lookup 1 [(1, (⟨"image/jpeg", some ⟨3000, 2000⟩, none⟩ : BlobData))]) ∧
    (validateMimeType "image/jpeg" = true ∧
     (∃ i, (List.lookup 1
        [(1, (⟨"image/jpeg", some ⟨3000, 2000⟩, none⟩ : BlobData))]).bind
          BlobData.image = some i) ∧
     Env.allOk ⟨true, true, true, true, true, 2⟩) :=
  ⟨⟨by decide, by decide⟩,
   handleBlob_delete_only_after_stat ⟨75, 1600⟩ ⟨true, true, true, true, true, 2⟩
     [(1, ⟨"image/jpeg", some ⟨3000, 2000⟩, none⟩)] ⟨1, "image/jpeg"⟩
     (by decide) (by decide)⟩

/-- C8: on every successful replacement — whatever the supported source
format was — the new blob is stored with content type image/jpeg and is
encoded at options.Quality, and the returned BlobInfo carries content type
image/jpeg. -/
theorem handleBlob_always_jpeg (opts : compressionOptions) (env : Env) (store : Store)
    (b : BlobInfo) (d : BlobData) (img : Img)
    (hv : validateMimeType b.contentType = true)
    (hl : List.lookup b.blobKey store = some d) (hi : d.image = some img)
    (he : env.allOk) (hk : env.newKey ≠ b.blobKey) :
    (handleBlob opts env store b).1.contentType = "image/jpeg" ∧
    List.lookup env.newKey (handleBlob opts env store b).2 =
      some (transcodedData opts img) ∧
    (transcodedData opts img).contentType = "image/jpeg" ∧
    (transcodedData opts img).quality = some opts.Quality := by
  rw [handleBlob_success_eq opts env store b d img hv hl hi he]
  refine ⟨rfl, ?_, rfl, rfl⟩
  rw [deleteOldBlob_cons_ne b.blobKey env.newKey _ _ hk]
  exact lookup_cons_self env.newKey _ _

/-- Witness for C8: a PNG source is re-encoded as a JPEG at quality 75. -/
theorem handleBlob_always_jpeg_witness :
    (validateMimeType "image/png" = true ∧
     List.lookup 1 [(1, (⟨"image/png", some ⟨300, 200⟩, none⟩ : BlobData))] =
       some ⟨"image/png", some ⟨300, 200⟩, none⟩ ∧
     (⟨"image/png", some ⟨300, 200⟩, none⟩ : BlobData).image = some ⟨300, 200⟩ ∧
     Env.allOk ⟨true, true, true, true, true, 2⟩ ∧ (2 : Nat) ≠ 1) ∧
    ((handleBlob ⟨75, 1600⟩ ⟨true, true, true, true, true, 2⟩
        [(1, ⟨"image/png", some ⟨300, 200⟩, none⟩)] ⟨1, "image/png"⟩).1.contentType =
      "image/jpeg" ∧
     List.lookup 2 (handleBlob ⟨75, 1600⟩ ⟨true, true, true, true, true, 2⟩
        [(1, ⟨"image/png", some ⟨300, 200⟩, none⟩)] ⟨1, "image/png"⟩).2 =
      some (transcodedData ⟨75, 1600⟩ ⟨300, 200⟩) ∧
     (transcodedData ⟨75, 1600⟩ ⟨300, 200⟩).contentType = "image/jpeg" ∧
     (transcodedData ⟨75, 1600⟩ ⟨300, 200⟩).quality = some 75) :=
  ⟨⟨by decide, by decide, by decide, by decide, by decide⟩,
   handleBlob_always_jpeg ⟨75, 1600⟩ ⟨true, true, true, true, true, 2⟩
     [(1, ⟨"image/png", some ⟨300, 200⟩, none⟩)] ⟨1, "image/png"⟩
     ⟨"image/png", some ⟨300, 200⟩, none⟩ ⟨300, 200⟩
     (by decide) (by decide) (by decide) (by decide) (by decide)⟩

end Optimg

namespace Optimg

/-- C7: running handleBlob again, with the same options, on the output of a
previous successful run finds an image that already satisfies the bound: the
target-size computation reports no change, and the stored result of the
second run is byte-for-byte the first run's blob data — same dimensions,
same image/jpeg content type, same quality. -/
theorem handleBlob_stable_under_repeat (opts : compressionOptions) (env1 env2 : Env)
    (store : Store) (b : BlobInfo) (d : BlobData) (img : Img)
    (hv : validateMimeType b.contentType = true)
    (hl : List.lookup b.blobKey store = some d) (hi : d.image = some img)
    (he1 : env1.allOk) (he2 : env2.allOk)
    (hk1 : env1.newKey ≠ b.blobKey) (hk2 : env2.newKey ≠ env1.newKey) :
    ∃ d1 : BlobData,
      List.lookup (handleBlob opts env1 store b).1.blobKey
        (handleBlob opts env1 store b).2 = some d1 ∧
      (∀ i : Img, d1.image = some i →
        computeTargetSize opts.Size i.width i.height = (i.width, i.height, false)) ∧
      List.lookup
        (handleBlob opts env2 (handleBlob opts env1 store b).2
          (handleBlob opts env1 store b).1).1.blobKey
        (handleBlob opts env2 (handleBlob opts env1 store b).2
          (handleBlob opts env1 store b).1).2 = some d1 := by
  have hstab := computeTargetSize_stable opts.Size img.width img.height
  have h1 := handleBlob_success_eq opts env1 store b d img hv hl hi he1
  rw [h1, deleteOldBlob_cons_ne b.blobKey env1.newKey _ _ hk1]
  have hdd : transcodedData opts
      ⟨(computeTargetSize opts.Size img.width img.height).1,
       (computeTargetSize opts.Size img.width img.height).2.1⟩ =
      transcodedData opts img := by
    unfold transcodedData
    rw [hstab]
  have h2 := handleBlob_success_eq opts env2
    ((env1.newKey, transcodedData opts img) :: deleteOldBlob b.blobKey store)
    ⟨env1.newKey, "image/jpeg"⟩ (transcodedData opts img)
    ⟨(computeTargetSize opts.Size img.width img.height).1,
     (computeTargetSize opts.Size img.width img.height).2.1⟩
    (show validateMimeType "image/jpeg" = true by decide)
    (lookup_cons_self env1.newKey _ _) rfl he2
  rw [h2, deleteOldBlob_cons_ne env1.newKey env2.newKey _ _ hk2]
  refine ⟨transcodedData opts img, lookup_cons_self env1.newKey _ _, ?_, ?_⟩
  · intro i hI
    have hIi : some (Img.mk (computeTargetSize opts.Size img.width img.height).1
        (computeTargetSize opts.Size img.width img.height).2.1) = some i := hI
    rw [← Option.some.inj hIi]
    exact hstab
  · rw [hdd]
    exact lookup_cons_self env2.newKey _ _

end Optimg

namespace Optimg

/-- Witness for C7: a 3000 x 2000 JPEG replaced at bound 1600, then replaced
again: the stored data of both runs coincide and the scaler reports no
change on them. -/
theorem handleBlob_stable_under_repeat_witness :
    ∃ d1 : BlobData,
      List.lookup (handleBlob ⟨75, 1600⟩ ⟨true, true, true, true, true, 2⟩
          [(1, ⟨"image/jpeg", some ⟨3000, 2000⟩, none⟩)] ⟨1, "image/jpeg"⟩).1.blobKey
        (handleBlob ⟨75, 1600⟩ ⟨true, true, true, true, true, 2⟩
          [(1, ⟨"image/jpeg", some ⟨3000, 2000⟩, none⟩)] ⟨1, "image/jpeg"⟩).2 = some d1 ∧
      (∀ i : Img, d1.image = some i →
        computeTargetSize (compressionOptions.mk 75 1600).Size i.width i.height =
          (i.width, i.height, false)) ∧
      List.lookup
        (handleBlob ⟨75, 1600⟩ ⟨true, true, true, true, true, 3⟩
          (handleBlob ⟨75, 1600⟩ ⟨true, true, true, true, true, 2⟩
            [(1, ⟨"image/jpeg", some ⟨3000, 2000⟩, none⟩)] ⟨1, "image/jpeg"⟩).2
          (handleBlob ⟨75, 1600⟩ ⟨true, true, true, true, true, 2⟩
            [(1, ⟨"image/jpeg", some ⟨3000, 2000⟩, none⟩)] ⟨1, "image/jpeg"⟩).1).1.blobKey
        (handleBlob ⟨75, 1600⟩ ⟨true, true, true, true, true, 3⟩
          (handleBlob ⟨75, 1600⟩ ⟨true, true, true, true, true, 2⟩
            [(1, ⟨"image/jpeg", some ⟨3000, 2000⟩, none⟩)] ⟨1, "image/jpeg"⟩).2
          (handleBlob ⟨75, 1600⟩ ⟨true, true, true, true, true, 2⟩
            [(1, ⟨"image/jpeg", some ⟨3000, 2000⟩, none⟩)] ⟨1, "image/jpeg"⟩).1).2 =
        some d1 :=
  handleBlob_stable_under_repeat ⟨75, 1600⟩ ⟨true, true, true, true, true, 2⟩
    ⟨true, true, true, true, true, 3⟩
    [(1, ⟨"image/jpeg", some ⟨3000, 2000⟩, none⟩)] ⟨1, "image/jpeg"⟩
    ⟨"image/jpeg", some ⟨3000, 2000⟩, none⟩ ⟨3000, 2000⟩
    (by decide) (by decide) rfl (by decide) (by decide) (by decide) (by decide)

/-- Helper: the processed slice has the length of the input slice, and its
entry at each index is the handleBlob result, from some intermediate store,
of the input entry at the same index. -/
theorem handleBlobSliceGo_spec (opts : compressionOptions) (envs : Nat → Env) :
    ∀ (bs : List BlobInfo) (i0 : Nat) (store : Store),
      (handleBlobSliceGo opts envs i0 store bs).1.length = bs.length ∧
      ∀ (j : Nat) (b : BlobInfo), bs.get? j = some b →
        ∃ s : Store, (handleBlobSliceGo opts envs i0 store bs).1.get? j =
          some (handleBlob opts (envs (i0 + j)) s b).1 := by
  intro bs
  induction bs with
  | nil =>
    intro i0 store
    refine ⟨rfl, ?_⟩
    intro j b hj
    simp [List.get?_nil] at hj
  | cons hd tl ih =>
    intro i0 store
    constructor
    · simp only [handleBlobSliceGo, List.length_cons]
      rw [(ih (i0 + 1) (handleBlob opts (envs i0) store hd).2).1]
    · intro j b hj
      cases j with
      | zero =>
        rw [List.get?_cons_zero] at hj
        refine ⟨store, ?_⟩
        simp only [handleBlobSliceGo, List.get?_cons_zero, Nat.add_zero]
        rw [Option.some.inj hj]
      | succ j2 =>
        rw [List.get?_cons_succ] at hj
        obtain ⟨s, hs⟩ :=
          (ih (i0 + 1) (handleBlob opts (envs i0) store hd).2).2 j2 b hj
        refine ⟨s, ?_⟩
        simp only [handleBlobSliceGo, List.get?_cons_succ]
        have harith : i0 + 1 + j2 = i0 + (j2 + 1) := by omega
        rw [← harith]
        exact hs

/-- Helper: processing the fields keeps the field names in order, and each
field's slice is the handleBlobSlice image, from some intermediate store, of
the input slice at the same position. -/
theorem processFields_spec (opts : compressionOptions) (envs : String → Nat → Env) :
    ∀ (blobs : List (String × List BlobInfo)) (store : Store),
      (processFields opts envs store blobs).1.map Prod.fst = blobs.map Prod.fst ∧
      ∀ (i : Nat) (k : String) (slice : List BlobInfo),
        blobs.get? i = some (k, slice) →
        ∃ st : Store, (processFields opts envs store blobs).1.get? i =
          some (k, (handleBlobSlice opts (envs k) st slice).1) := by
  intro blobs
  induction blobs with
  | nil =>
    intro store
    refine ⟨rfl, ?_⟩
    intro i k slice hi
    simp [List.get?_nil] at hi
  | cons hd tl ih =>
    intro store
    rcases hd with ⟨name, slice0⟩
    constructor
    · simp only [processFields, List.map_cons]
      rw [(ih _).1]
    · intro i k slice hi
      cases i with
      | zero =>
        rw [List.get?_cons_zero] at hi
        have hk : name = k := congrArg Prod.fst (Option.some.inj hi)
        have hs : slice0 = slice := congrArg Prod.snd (Option.some.inj hi)
        refine ⟨store, ?_⟩
        simp only [processFields, List.get?_cons_zero]
        rw [hk, hs]
      | succ i2 =>
        rw [List.get?_cons_succ] at hi
        obtain ⟨st, hst⟩ :=
          (ih (handleBlobSlice opts (envs name) store slice0).2).2 i2 k slice hi
        refine ⟨st, ?_⟩
        simp only [processFields, List.get?_cons_succ]
        exact hst

end Optimg

namespace Optimg

/-- C6: for every parsed upload, ParseBlobs returns a mapping with exactly
the same field names in the same order, the same number of blobs per field,
each entry replaced only by the handleBlob result of the entry that was at
that same index, and the plain form values returned unmodified. -/
theorem parseBlobs_shape (opts : compressionOptions) (envs : String → Nat → Env)
    (store : Store) (blobs : List (String × List BlobInfo))
    (other : List (String × String)) :
    ∃ (outFields : List (String × List BlobInfo)) (st : Store),
      ParseBlobs opts envs store (some (blobs, other)) = some (outFields, other, st) ∧
      outFields.map Prod.fst = blobs.map Prod.fst ∧
      (∀ (i : Nat) (k : String) (slice : List BlobInfo),
        blobs.get? i = some (k, slice) →
        ∃ outSlice : List BlobInfo, outFields.get? i = some (k, outSlice) ∧
          outSlice.length = slice.length ∧
          ∀ (j : Nat) (b : BlobInfo), slice.get? j = some b →
            ∃ s : Store, outSlice.get? j = some (handleBlob opts (envs k j) s b).1) := by
  refine ⟨(processFields opts envs store blobs).1, (processFields opts envs store blobs).2,
    rfl, (processFields_spec opts envs blobs store).1, ?_⟩
  intro i k slice hi
  obtain ⟨st, hst⟩ := (processFields_spec opts envs blobs store).2 i k slice hi
  refine ⟨(handleBlobSlice opts (envs k) st slice).1, hst,
    (handleBlobSliceGo_spec opts (envs k) slice 0 st).1, ?_⟩
  intro j b hj
  obtain ⟨s, hs⟩ := (handleBlobSliceGo_spec opts (envs k) slice 0 st).2 j b hj
  refine ⟨s, ?_⟩
  unfold handleBlobSlice
  rw [hs, Nat.zero_add]

/-- Witness for C6 on a two-field upload (one JPEG field, one non-image
field): same keys in order and the sibling form values pass through. -/
theorem parseBlobs_shape_witness :
    ∃ res, ParseBlobs ⟨75, 1600⟩ (fun _ _ => ⟨true, true, true, true, true, 2⟩)
        [(1, ⟨"image/jpeg", some ⟨3000, 2000⟩, none⟩)]
        (some ([("photo", [⟨1, "image/jpeg"⟩]), ("doc", [⟨5, "application/pdf"⟩])],
          [("n", "v")])) = some res ∧
      res.2.1 = [("n", "v")] ∧ res.1.map Prod.fst = ["photo", "doc"] := by
  obtain ⟨outFields, st, h1, h2, h3⟩ := parseBlobs_shape ⟨75, 1600⟩
    (fun _ _ => ⟨true, true, true, true, true, 2⟩)
    [(1, ⟨"image/jpeg", some ⟨3000, 2000⟩, none⟩)]
    [("photo", [⟨1, "image/jpeg"⟩]), ("doc", [⟨5, "application/pdf"⟩])] [("n", "v")]
  exact ⟨(outFields, [("n", "v")], st), h1, rfl, h2⟩

/-- C2 (amended): processing an upload whose field "photo" holds one
3000 x 2000 JPEG with maxDimension 1600 yields one "photo" object of
dimensions 1600 x 1066 (floor scaling), content type image/jpeg at quality
75, and the old object deleted from the store. -/
theorem parseBlobs_photo_1600 :
    ParseBlobs ⟨75, 1600⟩ (fun _ _ => ⟨true, true, true, true, true, 2⟩)
      [(1, ⟨"image/jpeg", some ⟨3000, 2000⟩, none⟩)]
      (some ([("photo", [⟨1, "image/jpeg"⟩])], [])) =
      some ([("photo", [⟨2, "image/jpeg"⟩])], [],
        [(2, ⟨"image/jpeg", some ⟨1600, 1066⟩, some 75⟩)]) := by
  decide

/-- Counterexample for C2 as stated: the same run does not produce a
1600 x 1067 object — floor(2000 * 1600 / 3000) is 1066, not 1067. -/
theorem parseBlobs_photo_1600_not_1067 :
    (2000 * 1600 / 3000 = 1066) ∧
    ParseBlobs ⟨75, 1600⟩ (fun _ _ => ⟨true, true, true, true, true, 2⟩)
      [(1, ⟨"image/jpeg", some ⟨3000, 2000⟩, none⟩)]
      (some ([("photo", [⟨1, "image/jpeg"⟩])], [])) ≠
      some ([("photo", [⟨2, "image/jpeg"⟩])], [],
        [(2, ⟨"image/jpeg", some ⟨1600, 1067⟩, some 75⟩)]) := by
  exact ⟨by decide, by decide⟩

end Optimg

namespace Optimg

/-- Floor of log2 with structural fuel (the fuel 256 of natLog2 covers every
number below 2^256, ample for the quantities of this development); fuel
recursion keeps the function kernel-reducible. -/
def natLog2F : Nat → Nat → Nat
  | 0, _ => 0
  | fuel + 1, n => if n ≤ 1 then 0 else natLog2F fuel (n / 2) + 1

/-- Floor of log2 for numbers below 2^256. -/
def natLog2 (n : Nat) : Nat := natLog2F 256 n

/-- Round num/den to the nearest integer, ties to even — the IEEE 754
rounding of a positive quotient once scaled into the significand range. -/
def rnd53 (num den : Nat) : Nat :=
  let q := num / den
  let r := num % den
  if 2 * r < den then q else if den < 2 * r then q + 1 else
  if q % 2 = 0 then q else q + 1

/-- Floor of log2 of the positive rational a/b, via a shifted integer
division. -/
def ratExp (a b : Nat) : Int :=
  (natLog2 (a * 2 ^ (natLog2 b + 1) / b) : Int) - (natLog2 b + 1)

/-- IEEE 754 round-to-nearest-even of the positive rational a/b to a binary64
value n * 2^t with a 53-bit significand (normal range; subnormals and
overflow cannot arise for the dimension ranges quantified here). -/
def roundRat (a b : Nat) : Nat × Int :=
  let e := ratExp a b
  if 0 ≤ e then (rnd53 (a * 2 ^ 52) (b * 2 ^ e.toNat), e - 52)
  else (rnd53 (a * 2 ^ (52 + (-e).toNat)) b, e - 52)

/-- IEEE 754 round-to-nearest-even of the positive dyadic A * 2^t to a 53-bit
significand: the rounding a binary64 multiplication applies to its exact
product. -/
def roundDyadic (A : Nat) (t : Int) : Nat × Int :=
  if natLog2 A ≤ 52 then (A, t)
  else (rnd53 A (2 ^ (natLog2 A - 52)), t + ((natLog2 A - 52 : ℕ) : ℤ))

/-- The Go expression int(math.Floor(float64(y) * (float64(m)/float64(x))))
of optimg.go lines 303 and 308, bit-faithfully: the float64 division m/x is
rounded to nearest-even, the multiplication by y is rounded again, and the
result is floored.  The integer inputs convert to float64 exactly below
2^53, the range quantified by the theorems using this function. -/
def goFloorScale (y m x : Nat) : Nat :=
  if y = 0 ∨ m = 0 ∨ x = 0 then 0 else
  if 0 ≤ (roundDyadic (y * (roundRat m x).1) (roundRat m x).2).2 then
    (roundDyadic (y * (roundRat m x).1) (roundRat m x).2).1 *
      2 ^ (roundDyadic (y * (roundRat m x).1) (roundRat m x).2).2.toNat
  else
    (roundDyadic (y * (roundRat m x).1) (roundRat m x).2).1 /
      2 ^ (-(roundDyadic (y * (roundRat m x).1) (roundRat m x).2).2).toNat

/-- The resize computation of handleBlob (optimg.go lines 297-310) with the
float64 arithmetic of the source embedded bit-for-bit (via goFloorScale),
in contrast to computeTargetSize, the exact-rational idealization. -/
def computeTargetSizeF (size w h : Nat) : Nat × Nat × Bool :=
  if 0 < size ∧ (size < w ∨ size < h) then
    let p1 : Nat × Nat := if size < w then (size, goFloorScale h size w) else (w, h)
    let p2 : Nat × Nat := if size < p1.2 then (goFloorScale p1.1 size p1.2, size) else p1
    (p2.1, p2.2, true)
  else
    (w, h, false)

/-- Helper: the fuelled log2 brackets its argument whenever the fuel covers
its bit length. -/
theorem natLog2F_spec : ∀ (fuel n : Nat), 1 ≤ n → n < 2 ^ fuel →
    2 ^ natLog2F fuel n ≤ n ∧ n < 2 ^ (natLog2F fuel n + 1) := by
  intro fuel
  induction fuel with
  | zero =>
    intro n h1 h2
    simp only [pow_zero] at h2
    omega
  | succ f ih =>
    intro n h1 h2
    by_cases hn : n ≤ 1
    · have hone : n = 1 := by omega
      subst hone
      simp [natLog2F]
    · simp only [natLog2F, if_neg hn]
      have h1' : 1 ≤ n / 2 := by omega
      have h2' : n / 2 < 2 ^ f := by
        rw [pow_succ] at h2
        omega
      obtain ⟨ha, hb⟩ := ih (n / 2) h1' h2'
      rw [pow_succ] at hb
      constructor
      · rw [pow_succ]
        omega
      · rw [pow_succ, pow_succ]
        omega

/-- Helper: the log2 bracket for numbers below 2^256. -/
theorem natLog2_spec (n : Nat) (h1 : 1 ≤ n) (h2 : n < 2 ^ 256) :
    2 ^ natLog2 n ≤ n ∧ n < 2 ^ (natLog2 n + 1) :=
  natLog2F_spec 256 n h1 h2

/-- Helper: round-to-nearest never exceeds the exact quotient by more than
half, in cleared-denominator form. -/
theorem rnd53_le_nat (num den : Nat) (hden : 0 < den) :
    2 * den * rnd53 num den ≤ 2 * num + den := by
  have hdm := Nat.div_add_mod num den
  have hr : num % den < den := Nat.mod_lt num hden
  have e1 : 2 * den * (num / den) = 2 * (den * (num / den)) := by ring
  have e2 : 2 * den * (num / den + 1) = 2 * (den * (num / den)) + 2 * den := by ring
  unfold rnd53
  by_cases h1 : 2 * (num % den) < den
  · rw [if_pos h1]
    omega
  · rw [if_neg h1]
    by_cases h2 : den < 2 * (num % den)
    · rw [if_pos h2]
      omega
    · rw [if_neg h2]
      by_cases h3 : num / den % 2 = 0
      · rw [if_pos h3]
        omega
      · rw [if_neg h3]
        omega

/-- Helper: round-to-nearest is at least the floored quotient. -/
theorem rnd53_ge (num den : Nat) : num / den ≤ rnd53 num den := by
  unfold rnd53
  by_cases h1 : 2 * (num % den) < den
  · rw [if_pos h1]
  · rw [if_neg h1]
    by_cases h2 : den < 2 * (num % den)
    · rw [if_pos h2]
      omega
    · rw [if_neg h2]
      by_cases h3 : num / den % 2 = 0
      · rw [if_pos h3]
      · rw [if_neg h3]
        omega

/-- Helper: round-to-nearest exceeds the floored quotient by at most one. -/
theorem rnd53_le_succ (num den : Nat) : rnd53 num den ≤ num / den + 1 := by
  unfold rnd53
  by_cases h1 : 2 * (num % den) < den
  · rw [if_pos h1]
    omega
  · rw [if_neg h1]
    by_cases h2 : den < 2 * (num % den)
    · rw [if_pos h2]
    · rw [if_neg h2]
      by_cases h3 : num / den % 2 = 0
      · rw [if_pos h3]
        omega
      · rw [if_neg h3]

end Optimg

namespace Optimg

/-- Helper: round-to-nearest in value form: at most the exact quotient plus
one half. -/
theorem rnd53_le_val (num den : Nat) (hden : 0 < den) :
    (rnd53 num den : ℚ) ≤ (num : ℚ) / (den : ℚ) + 1 / 2 := by
  have h := rnd53_le_nat num den hden
  have hden' : (0:ℚ) < (den:ℚ) := by exact_mod_cast hden
  rw [div_add_div _ _ (ne_of_gt hden') two_ne_zero, le_div_iff₀ (by positivity)]
  have h' : ((2 * den * rnd53 num den : ℕ) : ℚ) ≤ ((2 * num + den : ℕ) : ℚ) := by
    exact_mod_cast h
  push_cast at h'
  nlinarith [h']

/-- Helper: ratExp brackets the positive rational a/b between consecutive
powers of two. -/
theorem ratExp_spec (a b : Nat) (ha : 1 ≤ a) (hb : 1 ≤ b)
    (ha53 : a < 2 ^ 53) (hb128 : b < 2 ^ 128) :
    (2:ℚ) ^ (ratExp a b) ≤ (a:ℚ) / (b:ℚ) ∧
    (a:ℚ) / (b:ℚ) < (2:ℚ) ^ (ratExp a b + 1) := by
  have hb256 : b < 2 ^ 256 := lt_trans hb128 (by norm_num)
  obtain ⟨hb1, hb2⟩ := natLog2_spec b hb hb256
  have hS128 : natLog2 b + 1 ≤ 128 := by
    have : natLog2 b < 128 := by
      by_contra hcon
      push_neg at hcon
      have : (2:ℕ) ^ 128 ≤ 2 ^ natLog2 b := Nat.pow_le_pow_right (by norm_num) hcon
      omega
    omega
  have hv1 : 1 ≤ a * 2 ^ (natLog2 b + 1) / b := by
    rw [Nat.one_le_div_iff hb]
    calc b ≤ 2 ^ (natLog2 b + 1) := Nat.le_of_lt hb2
      _ ≤ a * 2 ^ (natLog2 b + 1) := Nat.le_mul_of_pos_left _ ha
  have hv256 : a * 2 ^ (natLog2 b + 1) / b < 2 ^ 256 := by
    have h1 : a * 2 ^ (natLog2 b + 1) / b ≤ a * 2 ^ (natLog2 b + 1) :=
      Nat.div_le_self _ _
    have h2 : a * 2 ^ (natLog2 b + 1) ≤ a * 2 ^ 128 :=
      Nat.mul_le_mul_left a (Nat.pow_le_pow_right (by norm_num) hS128)
    have h3 : a * 2 ^ 128 < 2 ^ 53 * 2 ^ 128 :=
      (Nat.mul_lt_mul_right (by positivity)).mpr ha53
    have h4 : (2:ℕ) ^ 53 * 2 ^ 128 < 2 ^ 256 := by norm_num
    omega
  obtain ⟨hv1', hv2'⟩ := natLog2_spec _ hv1 hv256
  have hmod := Nat.div_add_mod (a * 2 ^ (natLog2 b + 1)) b
  have hmlt : a * 2 ^ (natLog2 b + 1) % b < b := Nat.mod_lt _ hb
  have hbQ : (0:ℚ) < (b:ℚ) := by exact_mod_cast hb
  have h2S : (0:ℚ) < (2:ℚ) ^ (natLog2 b + 1 : ℕ) := by positivity
  -- lower bound in Nat: b * 2^Lv ≤ a * 2^S
  have hlow : b * 2 ^ natLog2 (a * 2 ^ (natLog2 b + 1) / b) ≤
      a * 2 ^ (natLog2 b + 1) := by
    calc b * 2 ^ natLog2 (a * 2 ^ (natLog2 b + 1) / b)
        ≤ b * (a * 2 ^ (natLog2 b + 1) / b) := Nat.mul_le_mul_left b hv1'
      _ ≤ a * 2 ^ (natLog2 b + 1) := by omega
  -- upper bound in Nat: a * 2^S < b * 2^(Lv+1)
  have hup : a * 2 ^ (natLog2 b + 1) <
      b * 2 ^ (natLog2 (a * 2 ^ (natLog2 b + 1) / b) + 1) := by
    have h5 : a * 2 ^ (natLog2 b + 1) <
        b * (a * 2 ^ (natLog2 b + 1) / b + 1) := by
      have hs : b * (a * 2 ^ (natLog2 b + 1) / b + 1) =
          b * (a * 2 ^ (natLog2 b + 1) / b) + b := by ring
      omega
    have h6 : a * 2 ^ (natLog2 b + 1) / b + 1 ≤
        2 ^ (natLog2 (a * 2 ^ (natLog2 b + 1) / b) + 1) := hv2'
    calc a * 2 ^ (natLog2 b + 1) < b * (a * 2 ^ (natLog2 b + 1) / b + 1) := h5
      _ ≤ b * 2 ^ (natLog2 (a * 2 ^ (natLog2 b + 1) / b) + 1) :=
        Nat.mul_le_mul_left b h6
  -- pass to ℚ
  have hlowQ : (b:ℚ) * (2:ℚ) ^ (natLog2 (a * 2 ^ (natLog2 b + 1) / b) : ℕ) ≤
      (a:ℚ) * (2:ℚ) ^ (natLog2 b + 1 : ℕ) := by exact_mod_cast hlow
  have hupQ : (a:ℚ) * (2:ℚ) ^ (natLog2 b + 1 : ℕ) <
      (b:ℚ) * (2:ℚ) ^ (natLog2 (a * 2 ^ (natLog2 b + 1) / b) + 1 : ℕ) := by
    exact_mod_cast hup
  constructor
  · show (2:ℚ) ^ ((natLog2 (a * 2 ^ (natLog2 b + 1) / b) : ℤ) -
      (natLog2 b + 1 : ℕ)) ≤ (a:ℚ) / (b:ℚ)
    rw [zpow_sub₀ (two_ne_zero), zpow_natCast, zpow_natCast,
      div_le_div_iff₀ h2S hbQ]
    calc (2:ℚ) ^ (natLog2 (a * 2 ^ (natLog2 b + 1) / b) : ℕ) * (b:ℚ) =
        (b:ℚ) * (2:ℚ) ^ (natLog2 (a * 2 ^ (natLog2 b + 1) / b) : ℕ) := by ring
      _ ≤ (a:ℚ) * (2:ℚ) ^ (natLog2 b + 1 : ℕ) := hlowQ
  · have hexp : ratExp a b + 1 =
        ((natLog2 (a * 2 ^ (natLog2 b + 1) / b) + 1 : ℕ) : ℤ) -
        ((natLog2 b + 1 : ℕ) : ℤ) := by
      unfold ratExp
      push_cast
      ring
    rw [hexp, zpow_sub₀ (two_ne_zero), zpow_natCast, zpow_natCast,
      div_lt_div_iff₀ hbQ h2S]
    calc (a:ℚ) * (2:ℚ) ^ (natLog2 b + 1 : ℕ) <
        (b:ℚ) * (2:ℚ) ^ (natLog2 (a * 2 ^ (natLog2 b + 1) / b) + 1 : ℕ) := hupQ
      _ = (2:ℚ) ^ (natLog2 (a * 2 ^ (natLog2 b + 1) / b) + 1 : ℕ) * (b:ℚ) := by
        ring

end Optimg

namespace Optimg

/-- Helper: rounding a positive quotient that has been scaled into the
53-bit significand range (its value q lies in the binade [2^e, 2^(e+1)))
yields a significand between 1 and 2^53 whose value overshoots q by at most
half an ulp, i.e. a factor 1 + 2^-53. -/
theorem rnd53_spec_general (num den : Nat) (hden : 0 < den) (q : ℚ) (e : ℤ)
    (hμ : (num:ℚ) / (den:ℚ) = q * (2:ℚ) ^ ((52:ℤ) - e))
    (hlo : (2:ℚ) ^ e ≤ q) (hhi : q < (2:ℚ) ^ (e + 1)) :
    1 ≤ rnd53 num den ∧ rnd53 num den ≤ 2 ^ 53 ∧
    (rnd53 num den : ℚ) * (2:ℚ) ^ (e - 52) ≤ q * (1 + 1 / 2 ^ 53) := by
  have hdenQ : (0:ℚ) < (den:ℚ) := by exact_mod_cast hden
  have hp1 : (0:ℚ) < (2:ℚ) ^ ((52:ℤ) - e) := by positivity
  have hp2 : (0:ℚ) < (2:ℚ) ^ (e - (52:ℤ)) := by positivity
  have hμlo : (2:ℚ) ^ (52:ℕ) ≤ (num:ℚ) / (den:ℚ) := by
    rw [hμ]
    calc (2:ℚ) ^ (52:ℕ) = (2:ℚ) ^ ((52:ℤ)) := by rw [← zpow_natCast]; norm_num
      _ = (2:ℚ) ^ (e + ((52:ℤ) - e)) := by rw [show e + ((52:ℤ) - e) = (52:ℤ) by ring]
      _ = (2:ℚ) ^ e * (2:ℚ) ^ ((52:ℤ) - e) := zpow_add₀ two_ne_zero _ _
      _ ≤ q * (2:ℚ) ^ ((52:ℤ) - e) := mul_le_mul_of_nonneg_right hlo (le_of_lt hp1)
  have hμhi : (num:ℚ) / (den:ℚ) < (2:ℚ) ^ (53:ℕ) := by
    rw [hμ]
    calc q * (2:ℚ) ^ ((52:ℤ) - e) < (2:ℚ) ^ (e + 1) * (2:ℚ) ^ ((52:ℤ) - e) :=
          mul_lt_mul_of_pos_right hhi hp1
      _ = (2:ℚ) ^ ((53:ℤ)) := by
          rw [← zpow_add₀ two_ne_zero, show (e + 1) + ((52:ℤ) - e) = (53:ℤ) by ring]
      _ = (2:ℚ) ^ (53:ℕ) := by rw [← zpow_natCast]; norm_num
  have hnd : den ≤ num := by
    have h1 : (1:ℚ) ≤ (num:ℚ) / (den:ℚ) := le_trans (by norm_num) hμlo
    rw [le_div_iff₀ hdenQ, one_mul] at h1
    exact_mod_cast h1
  have hr1 : 1 ≤ rnd53 num den := by
    have hg := rnd53_ge num den
    have h2 : 1 ≤ num / den := (Nat.one_le_div_iff hden).mpr hnd
    omega
  have hdiv53 : num / den < 2 ^ 53 := by
    have h1 : ((num / den : ℕ) : ℚ) ≤ (num:ℚ) / (den:ℚ) := Nat.cast_div_le
    have h2 : ((num / den : ℕ) : ℚ) < ((2 ^ 53 : ℕ) : ℚ) := by
      push_cast
      exact lt_of_le_of_lt h1 hμhi
    exact_mod_cast h2
  have hr2 : rnd53 num den ≤ 2 ^ 53 := by
    have := rnd53_le_succ num den
    omega
  refine ⟨hr1, hr2, ?_⟩
  have hval := rnd53_le_val num den hden
  have hprod : (2:ℚ) ^ ((52:ℤ) - e) * (2:ℚ) ^ (e - 52) = 1 := by
    rw [← zpow_add₀ two_ne_zero, show ((52:ℤ) - e) + (e - 52) = 0 by ring, zpow_zero]
  have hB : (1 / 2 : ℚ) * (2:ℚ) ^ (e - (52:ℤ)) = (2:ℚ) ^ (e - (53:ℤ)) := by
    rw [show (e - (53:ℤ)) = (-1) + (e - 52) by ring, zpow_add₀ two_ne_zero,
      zpow_neg_one, one_div]
  have hC : (2:ℚ) ^ (e - (53:ℤ)) ≤ q * (1 / 2 ^ 53) := by
    rw [show (e - (53:ℤ)) = e + (-53) by ring, zpow_add₀ two_ne_zero]
    have h53 : (2:ℚ) ^ ((-53):ℤ) = 1 / 2 ^ 53 := by
      rw [zpow_neg, one_div]
      norm_num
    rw [h53]
    exact mul_le_mul_of_nonneg_right hlo (by positivity)
  calc (rnd53 num den : ℚ) * (2:ℚ) ^ (e - (52:ℤ))
      ≤ ((num:ℚ) / (den:ℚ) + 1 / 2) * (2:ℚ) ^ (e - (52:ℤ)) :=
        mul_le_mul_of_nonneg_right hval (le_of_lt hp2)
    _ = q * ((2:ℚ) ^ ((52:ℤ) - e) * (2:ℚ) ^ (e - 52)) +
        (1 / 2) * (2:ℚ) ^ (e - (52:ℤ)) := by rw [hμ]; ring
    _ = q + (2:ℚ) ^ (e - (53:ℤ)) := by rw [hprod, mul_one, hB]
    _ ≤ q + q * (1 / 2 ^ 53) := by linarith [hC]
    _ = q * (1 + 1 / 2 ^ 53) := by ring

end Optimg

namespace Optimg

/-- Helper: roundRat produces a binary64 value n * 2^t with a significand
between 1 and 2^53 overshooting a/b by at most a factor 1 + 2^-53. -/
theorem roundRat_spec (a b : Nat) (ha : 1 ≤ a) (hb : 1 ≤ b)
    (ha53 : a < 2 ^ 53) (hb128 : b < 2 ^ 128) :
    1 ≤ (roundRat a b).1 ∧ (roundRat a b).1 ≤ 2 ^ 53 ∧
    ((roundRat a b).1 : ℚ) * (2:ℚ) ^ (roundRat a b).2 ≤
      ((a:ℚ) / (b:ℚ)) * (1 + 1 / 2 ^ 53) := by
  obtain ⟨hlo, hhi⟩ := ratExp_spec a b ha hb ha53 hb128
  have hbQ : (0:ℚ) < (b:ℚ) := by exact_mod_cast hb
  have hbne : (b:ℚ) ≠ 0 := ne_of_gt hbQ
  unfold roundRat
  by_cases he : 0 ≤ ratExp a b
  · rw [if_pos he]
    have hden : 0 < b * 2 ^ (ratExp a b).toNat := by positivity
    have h2t : ((2:ℚ)) ^ ((ratExp a b).toNat : ℕ) = (2:ℚ) ^ (ratExp a b) := by
      rw [← zpow_natCast, Int.toNat_of_nonneg he]
    have hpne : ((2:ℚ)) ^ ((ratExp a b).toNat : ℕ) ≠ 0 := by positivity
    have hμ : ((a * 2 ^ 52 : ℕ) : ℚ) / ((b * 2 ^ (ratExp a b).toNat : ℕ) : ℚ) =
        ((a:ℚ) / (b:ℚ)) * (2:ℚ) ^ ((52:ℤ) - ratExp a b) := by
      have e1 : (2:ℚ) ^ ((52:ℤ) - ratExp a b) =
          (2:ℚ) ^ (52:ℕ) / (2:ℚ) ^ ((ratExp a b).toNat : ℕ) := by
        rw [zpow_sub₀ two_ne_zero, h2t, ← zpow_natCast (2:ℚ) 52]
        norm_num
      rw [e1]
      push_cast
      field_simp
      left
      norm_num
    exact rnd53_spec_general _ _ hden _ _ hμ hlo hhi
  · rw [if_neg he]
    have hneg : (0:ℤ) ≤ -(ratExp a b) := by omega
    have h2t : ((2:ℚ)) ^ ((52 + (-(ratExp a b)).toNat : ℕ)) =
        (2:ℚ) ^ ((52:ℤ) - ratExp a b) := by
      rw [← zpow_natCast]
      congr 1
      push_cast
      rw [Int.toNat_of_nonneg hneg]
      ring
    have hμ : ((a * 2 ^ (52 + (-(ratExp a b)).toNat) : ℕ) : ℚ) / ((b : ℕ) : ℚ) =
        ((a:ℚ) / (b:ℚ)) * (2:ℚ) ^ ((52:ℤ) - ratExp a b) := by
      rw [← h2t]
      push_cast
      field_simp
    exact rnd53_spec_general _ _ hb _ _ hμ hlo hhi

end Optimg

namespace Optimg

/-- Helper: roundDyadic overshoots the exact dyadic A * 2^t by at most a
factor 1 + 2^-53 — the binary64 multiplication error bound. -/
theorem roundDyadic_spec (A : Nat) (t : Int) (hA : 1 ≤ A) (hA256 : A < 2 ^ 256) :
    ((roundDyadic A t).1 : ℚ) * (2:ℚ) ^ (roundDyadic A t).2 ≤
      ((A:ℚ) * (2:ℚ) ^ t) * (1 + 1 / 2 ^ 53) := by
  obtain ⟨hl1, hl2⟩ := natLog2_spec A hA hA256
  unfold roundDyadic
  by_cases hL : natLog2 A ≤ 52
  · rw [if_pos hL]
    show (A:ℚ) * (2:ℚ) ^ t ≤ ((A:ℚ) * (2:ℚ) ^ t) * (1 + 1 / 2 ^ 53)
    have h1 : (0:ℚ) ≤ (A:ℚ) * (2:ℚ) ^ t := by positivity
    nlinarith [h1]
  · rw [if_neg hL]
    push_neg at hL
    set k := natLog2 A - 52 with hkdef
    have hk1 : 1 ≤ k := by omega
    have hdk : (0:ℕ) < 2 ^ k := by positivity
    have hval := rnd53_le_val A (2 ^ k) hdk
    push_cast at hval
    have hzt : (0:ℚ) < (2:ℚ) ^ t := by positivity
    have hzk : (0:ℚ) < (2:ℚ) ^ (k : ℕ) := by positivity
    have hsplit : (2:ℚ) ^ (t + (k : ℕ)) = (2:ℚ) ^ t * (2:ℚ) ^ (k : ℕ) := by
      rw [zpow_add₀ two_ne_zero, zpow_natCast]
    have hulp : (1 / 2 : ℚ) * (2:ℚ) ^ (k : ℕ) ≤ (A:ℚ) / 2 ^ 53 := by
      have hnat : (2:ℕ) ^ (natLog2 A - 53) * 2 ^ 53 ≤ A := by
        have heq : (2:ℕ) ^ (natLog2 A - 53) * 2 ^ 53 = 2 ^ natLog2 A := by
          rw [← pow_add]
          congr 1
          omega
        rw [heq]
        exact hl1
      have hhalf : (1 / 2 : ℚ) * (2:ℚ) ^ (k : ℕ) =
          (((2:ℕ) ^ (natLog2 A - 53) : ℕ) : ℚ) := by
        push_cast
        rw [show k = (natLog2 A - 53) + 1 by omega, pow_succ]
        ring
      rw [hhalf, le_div_iff₀ (by positivity)]
      exact_mod_cast hnat
    show (rnd53 A (2 ^ k) : ℚ) * (2:ℚ) ^ (t + (k : ℕ)) ≤
      ((A:ℚ) * (2:ℚ) ^ t) * (1 + 1 / 2 ^ 53)
    calc (rnd53 A (2 ^ k) : ℚ) * (2:ℚ) ^ (t + (k : ℕ))
        ≤ ((A:ℚ) / (2:ℚ) ^ (k : ℕ) + 1 / 2) * ((2:ℚ) ^ t * (2:ℚ) ^ (k : ℕ)) := by
          rw [hsplit]
          exact mul_le_mul_of_nonneg_right hval (by positivity)
      _ = ((A:ℚ) / (2:ℚ) ^ (k : ℕ) * (2:ℚ) ^ (k : ℕ)) * (2:ℚ) ^ t +
          ((1 / 2) * (2:ℚ) ^ (k : ℕ)) * (2:ℚ) ^ t := by ring
      _ = (A:ℚ) * (2:ℚ) ^ t + ((1 / 2) * (2:ℚ) ^ (k : ℕ)) * (2:ℚ) ^ t := by
          rw [div_mul_cancel₀ _ (ne_of_gt hzk)]
      _ ≤ (A:ℚ) * (2:ℚ) ^ t + ((A:ℚ) / 2 ^ 53) * (2:ℚ) ^ t := by
          have := mul_le_mul_of_nonneg_right hulp (le_of_lt hzt)
          linarith
      _ = ((A:ℚ) * (2:ℚ) ^ t) * (1 + 1 / 2 ^ 53) := by ring

end Optimg

namespace Optimg

/-- Helper: the float64 floor-scale is bounded by the exact scale inflated
by the two rounding errors, a factor (1 + 2^-53)^2. -/
theorem goFloorScale_bound (y m x : Nat) (hy : 1 ≤ y) (hm : 1 ≤ m) (hx : m < x)
    (hm53 : m < 2 ^ 53) (hx128 : x < 2 ^ 128) (hy53 : y < 2 ^ 53) :
    ((goFloorScale y m x : ℕ) : ℚ) ≤
      (y:ℚ) * ((m:ℚ) / (x:ℚ)) * (1 + 1 / 2 ^ 53) ^ 2 := by
  have hx1 : 1 ≤ x := by omega
  obtain ⟨hn1, hn53, hval1⟩ := roundRat_spec m x hm hx1 hm53 hx128
  have hA1 : 1 ≤ y * (roundRat m x).1 := by
    calc 1 = 1 * 1 := by norm_num
      _ ≤ y * (roundRat m x).1 := Nat.mul_le_mul hy hn1
  have hA256 : y * (roundRat m x).1 < 2 ^ 256 := by
    calc y * (roundRat m x).1 ≤ y * 2 ^ 53 := Nat.mul_le_mul_left y hn53
      _ < 2 ^ 53 * 2 ^ 53 := (Nat.mul_lt_mul_right (by positivity)).mpr hy53
      _ < 2 ^ 256 := by norm_num
  have hval2 := roundDyadic_spec (y * (roundRat m x).1) (roundRat m x).2 hA1 hA256
  have hy0 : (0:ℚ) ≤ (y:ℚ) := by positivity
  have hε : (0:ℚ) ≤ 1 + 1 / 2 ^ 53 := by norm_num
  have h1 := mul_le_mul_of_nonneg_left hval1 hy0
  have h2 := mul_le_mul_of_nonneg_right h1 hε
  have hchain : ((roundDyadic (y * (roundRat m x).1) (roundRat m x).2).1 : ℚ) *
      (2:ℚ) ^ (roundDyadic (y * (roundRat m x).1) (roundRat m x).2).2 ≤
      (y:ℚ) * ((m:ℚ) / (x:ℚ)) * (1 + 1 / 2 ^ 53) ^ 2 := by
    calc ((roundDyadic (y * (roundRat m x).1) (roundRat m x).2).1 : ℚ) *
        (2:ℚ) ^ (roundDyadic (y * (roundRat m x).1) (roundRat m x).2).2
        ≤ ((y * (roundRat m x).1 : ℕ) : ℚ) * (2:ℚ) ^ (roundRat m x).2 *
          (1 + 1 / 2 ^ 53) := hval2
      _ = (y:ℚ) * (((roundRat m x).1 : ℚ) * (2:ℚ) ^ (roundRat m x).2) *
          (1 + 1 / 2 ^ 53) := by push_cast; ring
      _ ≤ (y:ℚ) * ((m:ℚ) / (x:ℚ) * (1 + 1 / 2 ^ 53)) * (1 + 1 / 2 ^ 53) := h2
      _ = (y:ℚ) * ((m:ℚ) / (x:ℚ)) * (1 + 1 / 2 ^ 53) ^ 2 := by ring
  have hguard : ¬(y = 0 ∨ m = 0 ∨ x = 0) := by omega
  unfold goFloorScale
  rw [if_neg hguard]
  by_cases h0 : 0 ≤ (roundDyadic (y * (roundRat m x).1) (roundRat m x).2).2
  · rw [if_pos h0]
    have hcast : (((roundDyadic (y * (roundRat m x).1) (roundRat m x).2).1 *
        2 ^ (roundDyadic (y * (roundRat m x).1) (roundRat m x).2).2.toNat : ℕ) : ℚ) =
        ((roundDyadic (y * (roundRat m x).1) (roundRat m x).2).1 : ℚ) *
        (2:ℚ) ^ (roundDyadic (y * (roundRat m x).1) (roundRat m x).2).2 := by
      push_cast
      rw [← zpow_natCast (2:ℚ)
        (roundDyadic (y * (roundRat m x).1) (roundRat m x).2).2.toNat,
        Int.toNat_of_nonneg h0]
    rw [hcast]
    exact hchain
  · rw [if_neg h0]
    have hneg : (0:ℤ) ≤ -(roundDyadic (y * (roundRat m x).1) (roundRat m x).2).2 := by
      omega
    have hle : (((roundDyadic (y * (roundRat m x).1) (roundRat m x).2).1 /
        2 ^ (-(roundDyadic (y * (roundRat m x).1) (roundRat m x).2).2).toNat : ℕ) : ℚ) ≤
        ((roundDyadic (y * (roundRat m x).1) (roundRat m x).2).1 : ℚ) /
        ((2 ^ (-(roundDyadic (y * (roundRat m x).1) (roundRat m x).2).2).toNat : ℕ) : ℚ) :=
      Nat.cast_div_le
    have hdiv : ((roundDyadic (y * (roundRat m x).1) (roundRat m x).2).1 : ℚ) /
        ((2 ^ (-(roundDyadic (y * (roundRat m x).1) (roundRat m x).2).2).toNat : ℕ) : ℚ) =
        ((roundDyadic (y * (roundRat m x).1) (roundRat m x).2).1 : ℚ) *
        (2:ℚ) ^ (roundDyadic (y * (roundRat m x).1) (roundRat m x).2).2 := by
      push_cast
      rw [← zpow_natCast (2:ℚ)
        (-(roundDyadic (y * (roundRat m x).1) (roundRat m x).2).2).toNat,
        Int.toNat_of_nonneg hneg, div_eq_mul_inv, ← zpow_neg, neg_neg]
    exact le_trans (le_trans hle (le_of_eq hdiv)) hchain

end Optimg

namespace Optimg

/-- Helper: scaling the bound m itself by the float64 ratio m/x with x > m
never exceeds m: the two half-ulp overshoots cannot bridge the gap to m+1
while m is float64-exact (m < 2^53). -/
theorem goFloorScale_le_self (m x : Nat) (hm : 1 ≤ m) (hx : m < x)
    (hm53 : m < 2 ^ 53) (hx128 : x < 2 ^ 128) :
    goFloorScale m m x ≤ m := by
  have hb := goFloorScale_bound m m x hm hm hx hm53 hx128 hm53
  have hmQ : (0:ℚ) < (m:ℚ) := by exact_mod_cast hm
  have hxQ : (0:ℚ) < (x:ℚ) := by exact_mod_cast (by omega : 0 < x)
  have hm1 : (0:ℚ) < (m:ℚ) + 1 := by positivity
  have hx' : (m:ℚ) + 1 ≤ (x:ℚ) := by exact_mod_cast hx
  have hfrac : (m:ℚ) / (x:ℚ) ≤ (m:ℚ) / ((m:ℚ) + 1) := by
    gcongr
  have hmc : (m:ℚ) < 2 ^ 53 := by exact_mod_cast hm53
  have hlin : (m:ℚ) * (1 + 1 / 2 ^ 53) < (m:ℚ) + 1 := by
    have hsm : (m:ℚ) * (1 / 2 ^ 53) < 1 := by
      rw [mul_one_div, div_lt_one (by positivity)]
      exact hmc
    nlinarith [hsm]
  have hkey : (m:ℚ) * ((m:ℚ) / ((m:ℚ) + 1)) * (1 + 1 / 2 ^ 53) ^ 2 < (m:ℚ) + 1 := by
    have hrw : (m:ℚ) * ((m:ℚ) / ((m:ℚ) + 1)) * (1 + 1 / 2 ^ 53) ^ 2 =
        ((m:ℚ) * (m:ℚ) * (1 + 1 / 2 ^ 53) ^ 2) / ((m:ℚ) + 1) := by ring
    rw [hrw, div_lt_iff₀ hm1]
    have hpos := mul_pos (sub_pos.mpr hlin)
      (show (0:ℚ) < ((m:ℚ) + 1) + (m:ℚ) * (1 + 1 / 2 ^ 53) by positivity)
    nlinarith [hpos]
  have hstep : (m:ℚ) * ((m:ℚ) / (x:ℚ)) * (1 + 1 / 2 ^ 53) ^ 2 ≤
      (m:ℚ) * ((m:ℚ) / ((m:ℚ) + 1)) * (1 + 1 / 2 ^ 53) ^ 2 := by
    have h := mul_le_mul_of_nonneg_left hfrac (le_of_lt hmQ)
    exact mul_le_mul_of_nonneg_right h (by positivity)
  have hlt : ((goFloorScale m m x : ℕ) : ℚ) < (m:ℚ) + 1 :=
    lt_of_le_of_lt (le_trans hb hstep) hkey
  have hfin : goFloorScale m m x < m + 1 := by exact_mod_cast hlt
  omega

/-- Helper: the float64 floor-scale with a shrinking ratio m/x (m < x) at
most doubles its input. -/
theorem goFloorScale_growth (y m x : Nat) (hy : 1 ≤ y) (hm : 1 ≤ m) (hx : m < x)
    (hm53 : m < 2 ^ 53) (hx128 : x < 2 ^ 128) (hy53 : y < 2 ^ 53) :
    goFloorScale y m x ≤ 2 * y := by
  have hb := goFloorScale_bound y m x hy hm hx hm53 hx128 hy53
  have hxQ : (0:ℚ) < (x:ℚ) := by exact_mod_cast (by omega : 0 < x)
  have hyQ : (0:ℚ) ≤ (y:ℚ) := by positivity
  have hfr : (m:ℚ) / (x:ℚ) ≤ 1 := by
    rw [div_le_one hxQ]
    exact_mod_cast le_of_lt hx
  have hq : ((goFloorScale y m x : ℕ) : ℚ) ≤ (y:ℚ) * 2 := by
    calc ((goFloorScale y m x : ℕ) : ℚ)
        ≤ (y:ℚ) * ((m:ℚ) / (x:ℚ)) * (1 + 1 / 2 ^ 53) ^ 2 := hb
      _ ≤ (y:ℚ) * 1 * (1 + 1 / 2 ^ 53) ^ 2 := by
          have h := mul_le_mul_of_nonneg_left hfr hyQ
          exact mul_le_mul_of_nonneg_right h (by positivity)
      _ ≤ (y:ℚ) * 2 := by nlinarith [hyQ]
  have h2 : goFloorScale y m x ≤ y * 2 := by exact_mod_cast hq
  omega

end Optimg

namespace Optimg

/-- C1 counterexample: at maxDimension 1 on a 49 x 49 image — inside the
claim's domain, both dimensions exceeding the positive bound — the program's
float64 first pass computes height 0 (49 * (1.0/49.0) rounds to 1 - 2^-53),
while the claim's formula floor(height * maxDimension / originalWidth)
gives 1, so the claimed two-pass result (1, 1) is not what the code
produces. -/
theorem computeTargetSizeF_floor_formula_false :
    computeTargetSizeF 1 49 49 = (1, 0, true) ∧
    49 * 1 / 49 = 1 ∧
    computeTargetSizeF 1 49 49 ≠ (1, 49 * 1 / 49, true) :=
  ⟨by decide, by decide, by decide⟩

/-- C1 (amended): for float64-exact inputs (all below 2^53), when both
dimensions exceed a positive maxDimension the target size is computed in two
passes: the first sets the width to the bound and the height to the float64
computation int(floor(float64(h) * (float64(bound)/float64(w)))); then,
exactly when that intermediate height still exceeds the bound, the second
pass sets the height to the bound and recomputes the width by the same
float64 computation from the already-adjusted width and the intermediate
height.  The larger resulting dimension equals the bound. -/
theorem computeTargetSizeF_two_pass (m w h : Nat) (hm : 0 < m) (hw : m < w)
    (hh : m < h) (hm53 : m < 2 ^ 53) (hw53 : w < 2 ^ 53) (hh53 : h < 2 ^ 53) :
    computeTargetSizeF m w h =
      (if m < goFloorScale h m w then
        (goFloorScale m m (goFloorScale h m w), m, true)
       else (m, goFloorScale h m w, true)) ∧
    max (computeTargetSizeF m w h).1 (computeTargetSizeF m w h).2.1 = m := by
  have hg : 0 < m ∧ (m < w ∨ m < h) := ⟨hm, Or.inl hw⟩
  have heq : computeTargetSizeF m w h =
      (if m < goFloorScale h m w then
        (goFloorScale m m (goFloorScale h m w), m, true)
       else (m, goFloorScale h m w, true)) := by
    unfold computeTargetSizeF
    rw [if_pos hg]
    simp only [if_pos hw]
    by_cases hy : m < goFloorScale h m w
    · rw [if_pos hy, if_pos hy]
    · rw [if_neg hy, if_neg hy]
  refine ⟨heq, ?_⟩
  rw [heq]
  by_cases hy : m < goFloorScale h m w
  · rw [if_pos hy]
    have hw128 : w < 2 ^ 128 := lt_trans hw53 (by norm_num)
    have hy128 : goFloorScale h m w < 2 ^ 128 := by
      have hgw := goFloorScale_growth h m w (by omega) (by omega) hw hm53 hw128 hh53
      have hc : 2 * 2 ^ 53 ≤ 2 ^ 128 := by norm_num
      omega
    have hle := goFloorScale_le_self m (goFloorScale h m w) (by omega) hy hm53 hy128
    exact Nat.max_eq_right hle
  · rw [if_neg hy]
    exact Nat.max_eq_left (Nat.le_of_not_lt hy)

/-- Witness for C1 at maxDimension 1600 on a 2000 x 3000 image (the
intermediate float64 height 2400 still exceeds the bound, so the second
pass also fires and yields width 1066). -/
theorem computeTargetSizeF_two_pass_witness :
    (0 < 1600 ∧ 1600 < 2000 ∧ 1600 < 3000 ∧
     1600 < 2 ^ 53 ∧ 2000 < 2 ^ 53 ∧ 3000 < 2 ^ 53) ∧
    (computeTargetSizeF 1600 2000 3000 =
      (if 1600 < goFloorScale 3000 1600 2000 then
        (goFloorScale 1600 1600 (goFloorScale 3000 1600 2000), 1600, true)
       else (1600, goFloorScale 3000 1600 2000, true)) ∧
     max (computeTargetSizeF 1600 2000 3000).1
       (computeTargetSizeF 1600 2000 3000).2.1 = 1600) :=
  ⟨by decide, computeTargetSizeF_two_pass 1600 2000 3000 (by decide) (by decide)
    (by decide) (by decide) (by decide) (by decide)⟩

end Optimg
